import Mathlib

/-!
Verification of the NorthstarAutograder form logic (`src/app.py`).

The source is a single-page Streamlit app: it reads four text fields
(email, first name, middle name, last name), normalizes them, runs an
ordered validation pipeline (presence/shape, then name casing, then the
single-character policy) and, on success, renders a fixed SQL script with
one interpolated `select util_db.public.greeting(...)` statement.

The embedding below models the module-level submission path of `app.py`
(lines 75–202) as pure functions over `String`/`List Char`.  Character
classes are modelled over ASCII: Python's `\s` / `str.strip()` /
`str.isalpha()` / `str.islower()` also accept some non-ASCII code points,
which none of the verified properties touch.
-/

namespace Autograder

/-- ASCII model of Python's whitespace class `\s` (also what `str.strip()`
removes): space, tab, newline, carriage return, vertical tab, form feed. -/
def isPySpace (c : Char) : Bool :=
  c = ' ' || c = '\t' || c = '\n' || c = '\x0d' || c = '\x0b' || c = '\x0c'

/-- Python `str.islower()` on a string: at least one cased character and
every cased character lowercase (cased = alphabetic in the ASCII model). -/
def py_str_islower (cs : List Char) : Bool :=
  cs.any (fun c => c.isAlpha) && cs.all (fun c => !c.isAlpha || c.isLower)

/-- One pass of `re.sub(r"\s+", " ", ·)`: each maximal run of whitespace
becomes a single `' '`.  `prevSpace` records whether the previous character
belonged to a whitespace run already emitted. -/
def collapseAux (prevSpace : Bool) : List Char → List Char
  | [] => []
  | c :: rest =>
    if isPySpace c then
      if prevSpace then collapseAux true rest
      else ' ' :: collapseAux true rest
    else c :: collapseAux false rest

/-- `re.sub(r"\s+", " ", cs)`. -/
def collapse (cs : List Char) : List Char :=
  collapseAux false cs

/-- Python `str.lstrip()` (ASCII whitespace model). -/
def lstrip (cs : List Char) : List Char :=
  cs.dropWhile isPySpace

/-- Python `str.rstrip()` (ASCII whitespace model). -/
def rstrip (cs : List Char) : List Char :=
  (cs.reverse.dropWhile isPySpace).reverse

/-- Python `str.strip()` (ASCII whitespace model). -/
def pystrip (cs : List Char) : List Char :=
  lstrip (rstrip cs)

/-- `app.py` line 19–20: `normalize_space(value) = re.sub(r"\s+", " ",
(value or "").strip())`.  (`value or ""` is the identity on strings; the
`None` case cannot arise from `st.text_input`.) -/
def normalize_space (value : String) : String :=
  ⟨collapse (pystrip value.toList)⟩

/-- `value.replace("'", "''")`: double every single quote. -/
def escape_quotes : List Char → List Char
  | [] => []
  | c :: rest =>
    if c = '\'' then '\'' :: '\'' :: escape_quotes rest
    else c :: escape_quotes rest

/-- `app.py` line 15–16: `sql_string_literal(value) = "'" +
value.replace("'", "''") + "'"`. -/
def sql_string_literal (value : String) : String :=
  ⟨'\'' :: (escape_quotes value.toList ++ ['\''])⟩

/-- `app.py` lines 23–30: `looks_like_bad_name_case`.  Normalizes, keeps
only alphabetic characters; `False` for at most one letter, otherwise
`True` iff all letters are lowercase or all are uppercase. -/
def looks_like_bad_name_case (value : String) : Bool :=
  let letters := (normalize_space value).toList.filter (fun c => c.isAlpha)
  if letters.length ≤ 1 then false
  else letters.all (fun c => c.isLower) || letters.all (fun c => c.isUpper)

/-- `app.py` lines 32–40: `is_allowed_single_initial(raw)` =
`re.fullmatch(r"[A-Z]\s+", raw) is not None`: exactly one uppercase ASCII
letter followed by one or more whitespace characters. -/
def is_allowed_single_initial (raw_value : String) : Bool :=
  match raw_value.toList with
  | [] => false
  | c :: rest => c.isUpper && !rest.isEmpty && rest.all isPySpace

/-- Split a list at the first occurrence of `sep`: `some (before, after)`
when `sep` occurs (with `sep ∉ before`), `none` otherwise. -/
def split_at_first (sep : Char) : List Char → Option (List Char × List Char)
  | [] => none
  | c :: rest =>
    if c = sep then some ([], rest)
    else
      match split_at_first sep rest with
      | some (a, b) => some (c :: a, b)
      | none => none

/-- Executable matcher for `app.py` line 12's
`EMAIL_RE = re.compile(r"^[^\s@]+@[^\s@]+\.[^\s@]+$")` (used via
`EMAIL_RE.match` on a normalized — hence newline-free — string, so the
match is anchored at both ends).  The string matches iff it splits at its
unique `'@'` into a nonempty whitespace-free local part and a domain part
that is whitespace- and `'@'`-free and contains a `'.'` that is neither
its first nor its last character. -/
def email_ok (s : String) : Bool :=
  match split_at_first '@' s.toList with
  | none => false
  | some (loc, dom) =>
    !loc.isEmpty && loc.all (fun c => !isPySpace c) &&
      dom.all (fun c => !isPySpace c && c ≠ '@') &&
      ((dom.drop 1).dropLast.contains '.')

/-- The language of the regex `^[^\s@]+@[^\s@]+\.[^\s@]+$`, read off
literally: a decomposition into three nonempty blocks of
non-whitespace-non-`'@'` characters joined by `'@'` and `'.'`. -/
def EMAIL_RE_matches (cs : List Char) : Prop :=
  ∃ a b c : List Char,
    cs = a ++ '@' :: (b ++ '.' :: c) ∧
    a ≠ [] ∧ b ≠ [] ∧ c ≠ [] ∧
    (∀ ch ∈ a, isPySpace ch = false ∧ ch ≠ '@') ∧
    (∀ ch ∈ b, isPySpace ch = false ∧ ch ≠ '@') ∧
    (∀ ch ∈ c, isPySpace ch = false ∧ ch ≠ '@')

/-! ### The validation pipeline (`app.py` lines 75–150) -/

def email_required_msg : String := "Email is required."

def email_invalid_msg : String :=
  "Email doesn't look valid (expected something like name@company.com)."

def first_required_msg : String := "First name is required."

def last_required_msg : String := "Last name is required."

def first_case_msg : String := "First name cannot be all lowercase or all uppercase."

def middle_case_msg : String := "Middle name cannot be all lowercase or all uppercase."

def last_case_msg : String := "Last name cannot be all lowercase or all uppercase."

def single_char_msg : String :=
  "A single character is not allowed, please input a space after to proceed."

/-- `app.py` lines 90–99: the presence/shape error list, built from the
*normalized* email, first and last values (`if not email … elif not
EMAIL_RE.match(email)`, `if not first`, `if not last`). -/
def presence_errors (email first last : String) : List String :=
  (if email = "" then [email_required_msg]
   else if email_ok email then [] else [email_invalid_msg]) ++
  (if first = "" then [first_required_msg] else []) ++
  (if last = "" then [last_required_msg] else [])

/-- `app.py` lines 109/111/113's shared condition: the normalized value is
a single character and (as a Python string) `islower()`. -/
def single_lower_flag (norm : String) : Bool :=
  norm.length == 1 && py_str_islower norm.toList

/-- `app.py` lines 106–121: the casing error list.  First the three
single-lowercase special cases (middle guarded by the *raw* middle being
nonempty), then the three `looks_like_bad_name_case` checks (middle
guarded by the *normalized* middle being nonempty), in source order. -/
def name_case_errors (first middle last middle_raw : String) : List String :=
  (if single_lower_flag first then [first_case_msg] else []) ++
  (if middle_raw ≠ "" ∧ single_lower_flag middle then [middle_case_msg] else []) ++
  (if single_lower_flag last then [last_case_msg] else []) ++
  (if looks_like_bad_name_case first then [first_case_msg] else []) ++
  (if middle ≠ "" ∧ looks_like_bad_name_case middle then [middle_case_msg] else []) ++
  (if looks_like_bad_name_case last then [last_case_msg] else [])

/-- `app.py` lines 131/133/135's shared condition: normalized length 1,
not `islower()`, and the raw value is not the allowed single initial. -/
def single_char_flag (norm raw : String) : Bool :=
  norm.length == 1 && !py_str_islower norm.toList && !is_allowed_single_initial raw

/-- `app.py` lines 128–136: the single-character error list (middle
guarded by the raw middle being nonempty). -/
def single_char_errors (first first_raw middle middle_raw last last_raw : String) :
    List String :=
  (if single_char_flag first first_raw then [single_char_msg] else []) ++
  (if middle_raw ≠ "" ∧ single_char_flag middle middle_raw then [single_char_msg] else []) ++
  (if single_char_flag last last_raw then [single_char_msg] else [])

/-- `app.py` lines 143–150: the interpolated greeting statement.  The
first argument is the (normalized, line 75) email; the name arguments are
the raw `first_sql`/`middle_sql`/`last_sql` values (lines 86–88). -/
def greeting_call_sql (email first_sql middle_sql last_sql : String) : String :=
  "select util_db.public.greeting(" ++
    sql_string_literal email ++ ", " ++
    sql_string_literal first_sql ++ ", " ++
    sql_string_literal middle_sql ++ ", " ++
    sql_string_literal last_sql ++ ");"

/-- The fixed text of `app.py`'s `sql_out` f-string (lines 153–201) up to
the `{greeting_call_sql}` interpolation point, byte for byte (trailing
spaces included). -/
def SQL_TEMPLATE_PREFIX : String :=
  "--!jinja\nuse role accountadmin;\n\ncreate or replace api integration dora_api_integration \napi_provider = aws_api_gateway \napi_aws_role_arn = 'arn:aws:iam::321463406630:role/snowflakeLearnerAssumedRole' \nenabled = true \napi_allowed_prefixes = ('https://awy6hshxy4.execute-api.us-west-2.amazonaws.com/dev/edu_dora');\n\ncreate database if not exists util_db;\nuse database util_db;\nuse schema public;\n\ncreate or replace external function util_db.public.grader(        \n step varchar     \n , passed boolean     \n , actual integer     \n , expected integer    \n , description varchar) \n returns variant \n api_integration = dora_api_integration \n context_headers = (current_timestamp,current_account, current_statement, current_account_name) \n as 'https://awy6hshxy4.execute-api.us-west-2.amazonaws.com/dev/edu_dora/grader'  \n;  \n\nselect grader(step, (actual = expected), actual, expected, description) as graded_results from (SELECT\n 'AUTO_GRADER_IS_WORKING' as step\n ,(select 123) as actual\n ,123 as expected\n ,'The Snowflake auto-grader has been successfully set up in your account!' as description\n);\n\ncreate or replace external function util_db.public.greeting(\n      email varchar\n    , firstname varchar\n    , middlename varchar\n    , lastname varchar)\nreturns variant\napi_integration = dora_api_integration\ncontext_headers = (current_timestamp, current_account, current_statement, current_account_name) \nas 'https://awy6hshxy4.execute-api.us-west-2.amazonaws.com/dev/edu_dora/greeting'\n; \n\n\n-- Be sure to follow the rules your session leader presents\n-- Format your name CORRECTLY (do not use all lower case)\n-- If you do not have a middle name, use an empty string '' ; do not use \"null\" in place of any values\n-- Double-check your email. You must use the same email for the greeting as you used to register\n"

/-- `app.py` line 153–202: the full generated script.  The f-string body
starts with a non-whitespace character and ends with
`{greeting_call_sql}\n`, and `greeting_call_sql` ends in `";"`, so the
trailing `.strip()` removes exactly the final newline, which `+ "\n"`
restores: the result is the prefix, the greeting statement, one newline. -/
def sql_out (email first_sql middle_sql last_sql : String) : String :=
  SQL_TEMPLATE_PREFIX ++ greeting_call_sql email first_sql middle_sql last_sql ++ "\n"

/-- Which validation category a rejected submission stopped in. -/
inductive Stage
  | presence
  | casing
  | singleChar
deriving DecidableEq, Repr

/-- What one submission produces: the list of error messages actually
displayed (`st.error` calls) for the one category that failed, or the
generated script. -/
inductive Outcome
  | invalid (stage : Stage) (displayed : List String)
  | success (sql : String)
deriving DecidableEq, Repr

/-- `app.py` lines 75–150, the module-level submission path: normalize
(line 75 reassigns `email` to its normalized form; lines 80–82 normalize
the names; lines 86–88 keep the raws for SQL), then the three error
categories in order, each halting via `st.stop()` when nonempty; the
single-character category displays its shared message once (line 140). -/
def handle_submit (email_in first_raw middle_raw last_raw : String) : Outcome :=
  let email := normalize_space email_in
  let first := normalize_space first_raw
  let middle := normalize_space middle_raw
  let last := normalize_space last_raw
  if presence_errors email first last ≠ [] then
    .invalid .presence (presence_errors email first last)
  else if name_case_errors first middle last middle_raw ≠ [] then
    .invalid .casing (name_case_errors first middle last middle_raw)
  else if single_char_errors first first_raw middle middle_raw last last_raw ≠ [] then
    .invalid .singleChar [single_char_msg]
  else
    .success (sql_out email first_raw middle_raw last_raw)

/-- Parser for the body of a SQL string literal after its opening quote:
ordinary characters are kept, a doubled `''` yields one `'`, a lone `'` at
the very end closes the literal; anything else fails.  Used to state that
`sql_string_literal` is a lossless SQL string-literal encoding. -/
def unescape_body : List Char → Option (List Char)
  | [] => none
  | [c] => if c = '\'' then some [] else none
  | c :: c2 :: rest =>
    if c = '\'' then
      if c2 = '\'' then (unescape_body rest).map (fun b => '\'' :: b) else none
    else (unescape_body (c2 :: rest)).map (fun b => c :: b)

/-- Decode a SQL string literal: an opening quote, then `unescape_body`. -/
def sql_unescape (s : String) : Option String :=
  match s.toList with
  | [] => none
  | c :: rest => if c = '\'' then (unescape_body rest).map (fun b => (⟨b⟩ : String)) else none

end Autograder

/-! ## Helper lemmas -/

namespace Autograder

theorem getLast?_cons_of_getLast? {a c : Char} {l : List Char}
    (h : l.getLast? = some c) : (a :: l).getLast? = some c := by
  cases l with
  | nil => simp at h
  | cons y u => rw [List.getLast?_cons_cons]; exact h

theorem dropWhile_eq_self_of_head (p : Char → Bool) (l : List Char)
    (h : ∀ x ∈ l.head?, p x = false) : l.dropWhile p = l := by
  cases l with
  | nil => rfl
  | cons x t =>
    have hx : p x = false := h x (by simp)
    simp [List.dropWhile_cons, hx]

theorem dropWhile_head_not (p : Char → Bool) (l : List Char) :
    ∀ x t, l.dropWhile p = x :: t → p x = false := by
  induction l with
  | nil => intro x t h; simp at h
  | cons y u ih =>
    intro x t h
    rw [List.dropWhile_cons] at h
    by_cases hy : p y
    · rw [if_pos hy] at h; exact ih x t h
    · rw [if_neg hy] at h
      cases h
      simpa using hy

theorem dropWhile_getLast?_eq (p : Char → Bool) (l : List Char) :
    ∀ c, l.getLast? = some c → p c = false → (l.dropWhile p).getLast? = some c := by
  induction l with
  | nil => intro c h _; simp at h
  | cons x t ih =>
    intro c h hc
    cases t with
    | nil =>
      simp at h
      subst h
      simp [List.dropWhile_cons, hc]
    | cons y u =>
      rw [List.getLast?_cons_cons] at h
      rw [List.dropWhile_cons]
      by_cases hx : p x
      · rw [if_pos hx]; exact ih c h hc
      · rw [if_neg hx]; rw [List.getLast?_cons_cons]; exact h

theorem getLast?_dropWhile_some (p : Char → Bool) (l : List Char) :
    ∀ c, (l.dropWhile p).getLast? = some c → l.getLast? = some c := by
  induction l with
  | nil => intro c h; simp at h
  | cons y u ih =>
    intro c h
    rw [List.dropWhile_cons] at h
    by_cases hy : p y
    · rw [if_pos hy] at h
      exact getLast?_cons_of_getLast? (ih c h)
    · rw [if_neg hy] at h; exact h

theorem collapseAux_cons_not {x : Char} (b : Bool) (t : List Char)
    (hx : isPySpace x = false) : collapseAux b (x :: t) = x :: collapseAux false t := by
  simp [collapseAux, hx]

theorem collapseAux_getLast?_eq (l : List Char) :
    ∀ (b : Bool) (c : Char), l.getLast? = some c → isPySpace c = false →
      (collapseAux b l).getLast? = some c := by
  induction l with
  | nil => intro b c h _; simp at h
  | cons x t ih =>
    intro b c h hc
    cases t with
    | nil =>
      simp at h
      subst h
      rw [collapseAux_cons_not b [] hc]
      rfl
    | cons y u =>
      rw [List.getLast?_cons_cons] at h
      by_cases hx : isPySpace x
      · cases b with
        | true => simpa [collapseAux, hx] using ih true c h hc
        | false =>
          have h2 := ih true c h hc
          simp only [collapseAux, hx, if_pos, if_true, Bool.false_eq_true, if_false]
          exact getLast?_cons_of_getLast? h2
      · rw [collapseAux_cons_not b (y :: u) (by simpa using hx)]
        exact getLast?_cons_of_getLast? (ih false c h hc)

theorem collapseAux_idem (l : List Char) :
    ∀ b : Bool, collapseAux b (collapseAux b l) = collapseAux b l := by
  induction l with
  | nil => intro b; simp [collapseAux]
  | cons x t ih =>
    intro b
    by_cases hx : isPySpace x
    · cases b with
      | true => simpa [collapseAux, hx] using ih true
      | false =>
        have hsp : isPySpace ' ' = true := rfl
        simp only [collapseAux, hx, if_true, Bool.false_eq_true, if_false, hsp]
        rw [ih true]
    · rw [collapseAux_cons_not b t (by simpa using hx)]
      rw [collapseAux_cons_not b (collapseAux false t) (by simpa using hx)]
      rw [ih false]

theorem pystrip_head_not (l : List Char) :
    ∀ x t, pystrip l = x :: t → isPySpace x = false := by
  intro x t h
  exact dropWhile_head_not isPySpace (rstrip l) x t h

theorem pystrip_getLast?_not (l : List Char) :
    ∀ c, (pystrip l).getLast? = some c → isPySpace c = false := by
  intro c h
  have h1 : (rstrip l).getLast? = some c := getLast?_dropWhile_some isPySpace (rstrip l) c h
  unfold rstrip at h1
  rw [List.getLast?_reverse] at h1
  cases hdw : (l.reverse.dropWhile isPySpace) with
  | nil => rw [hdw] at h1; simp at h1
  | cons z w =>
    rw [hdw] at h1
    simp at h1
    subst h1
    exact dropWhile_head_not isPySpace l.reverse z w hdw

theorem pystrip_collapse_pystrip (L : List Char) :
    pystrip (collapseAux false (pystrip L)) = collapseAux false (pystrip L) := by
  cases hM : pystrip L with
  | nil => rfl
  | cons x t =>
    have hx : isPySpace x = false := pystrip_head_not L x t hM
    have hhead : collapseAux false (x :: t) = x :: collapseAux false t :=
      collapseAux_cons_not false t hx
    have hlast : ∀ c, (collapseAux false (x :: t)).getLast? = some c → isPySpace c = false := by
      intro c hc
      have hne : (x :: t).getLast? = some ((x :: t).getLast (by simp)) := List.getLast?_eq_getLast _ _
      have hnotsp : isPySpace ((x :: t).getLast (by simp)) = false := by
        apply pystrip_getLast?_not L
        rw [hM]; exact hne
      have := collapseAux_getLast?_eq (x :: t) false _ hne hnotsp
      rw [this] at hc
      cases hc
      exact hnotsp
    unfold pystrip
    have hr : rstrip (collapseAux false (x :: t)) = collapseAux false (x :: t) := by
      unfold rstrip
      rw [dropWhile_eq_self_of_head]
      · exact List.reverse_reverse _
      · intro z hz
        rw [List.head?_reverse] at hz
        exact hlast z (Option.mem_def.mp hz)
    rw [hr]
    unfold lstrip
    apply dropWhile_eq_self_of_head
    intro z hz
    rw [hhead] at hz
    simp at hz
    subst hz
    exact hx

end Autograder

namespace Autograder

theorem normalize_space_idem (s : String) :
    normalize_space (normalize_space s) = normalize_space s := by
  unfold normalize_space collapse
  show (⟨collapseAux false (pystrip (collapseAux false (pystrip s.toList)))⟩ : String) =
    ⟨collapseAux false (pystrip s.toList)⟩
  rw [pystrip_collapse_pystrip, collapseAux_idem]

theorem normalize_space_head_not (s : String) (c : Char)
    (h : (normalize_space s).toList.head? = some c) : isPySpace c = false := by
  have h' : (collapseAux false (pystrip s.toList)).head? = some c := h
  cases hM : pystrip s.toList with
  | nil => rw [hM] at h'; simp [collapseAux] at h'
  | cons x t =>
    have hx : isPySpace x = false := pystrip_head_not s.toList x t hM
    rw [hM, collapseAux_cons_not false t hx] at h'
    simp at h'
    subst h'
    exact hx

theorem normalize_space_getLast?_not (s : String) (c : Char)
    (h : (normalize_space s).toList.getLast? = some c) : isPySpace c = false := by
  have h' : (collapseAux false (pystrip s.toList)).getLast? = some c := h
  cases hM : pystrip s.toList with
  | nil => rw [hM] at h'; simp [collapseAux] at h'
  | cons x t =>
    have hne : (x :: t).getLast? = some ((x :: t).getLast (by simp)) := List.getLast?_eq_getLast _ _
    have hnotsp : isPySpace ((x :: t).getLast (by simp)) = false := by
      apply pystrip_getLast?_not s.toList
      rw [hM]; exact hne
    have h2 := collapseAux_getLast?_eq (x :: t) false _ hne hnotsp
    rw [hM, h2] at h'
    cases h'
    exact hnotsp

/-- C7: `normalize_space` returns the empty string on empty input, maps
`"  a   b  "` to `"a b"`, is idempotent, and its output has no leading or
trailing whitespace character (whitespace runs collapsed, ends trimmed). -/
theorem normalize_space_spec :
    (∀ s : String, normalize_space (normalize_space s) = normalize_space s) ∧
    normalize_space "" = "" ∧
    normalize_space "  a   b  " = "a b" ∧
    (∀ (s : String) (c : Char),
      (normalize_space s).toList.head? = some c → isPySpace c = false) ∧
    (∀ (s : String) (c : Char),
      (normalize_space s).toList.getLast? = some c → isPySpace c = false) :=
  ⟨normalize_space_idem, by decide, by decide, normalize_space_head_not,
    normalize_space_getLast?_not⟩

end Autograder

namespace Autograder

/-- C4: `is_allowed_single_initial` accepts exactly one uppercase ASCII
letter followed by one or more whitespace characters and nothing else;
false on empty input, on `"K"` and on `"k "`, true on `"K "`. -/
theorem is_allowed_single_initial_spec :
    (∀ raw : String, is_allowed_single_initial raw = true ↔
      ∃ (c : Char) (ws : List Char), raw.toList = c :: ws ∧ c.isUpper = true ∧
        ws ≠ [] ∧ ∀ x ∈ ws, isPySpace x = true) ∧
    is_allowed_single_initial "" = false ∧
    is_allowed_single_initial "K" = false ∧
    is_allowed_single_initial "k " = false ∧
    is_allowed_single_initial "K " = true := by
  refine ⟨fun raw => ?_, by decide, by decide, by decide, by decide⟩
  unfold is_allowed_single_initial
  cases h : raw.toList with
  | nil => simp
  | cons c rest =>
    simp only [Bool.and_eq_true, Bool.not_eq_true', List.isEmpty_eq_false,
      List.all_eq_true]
    constructor
    · rintro ⟨⟨hu, hne⟩, hall⟩
      exact ⟨c, rest, rfl, hu, hne, hall⟩
    · rintro ⟨c', ws, heq, hu, hne, hall⟩
      cases heq
      exact ⟨⟨hu, hne⟩, hall⟩

/-- C5: on a normalized name, `looks_like_bad_name_case` is false when the
name has at most one alphabetic character, and for two or more letters it
is true iff all letters are lowercase or all are uppercase; the spec's
examples, including mixed-case `"O'Brien"`, evaluate as stated. -/
theorem looks_like_bad_name_case_spec :
    (∀ s : String, normalize_space s = s →
      (((s.toList.filter fun c => c.isAlpha).length ≤ 1 →
          looks_like_bad_name_case s = false) ∧
        (2 ≤ (s.toList.filter fun c => c.isAlpha).length →
          (looks_like_bad_name_case s = true ↔
            ((s.toList.filter fun c => c.isAlpha).all (fun c => c.isLower) = true ∨
              (s.toList.filter fun c => c.isAlpha).all (fun c => c.isUpper) = true))))) ∧
    looks_like_bad_name_case "john" = true ∧
    looks_like_bad_name_case "JOHN" = true ∧
    looks_like_bad_name_case "John" = false ∧
    looks_like_bad_name_case "J" = false ∧
    looks_like_bad_name_case "O'Brien" = false := by
  refine ⟨fun s h => ?_, by decide, by decide, by decide, by decide, by decide⟩
  unfold looks_like_bad_name_case
  rw [h]
  refine ⟨fun hle => ?_, fun h2 => ?_⟩
  · simp only [if_pos hle]
  · rw [if_neg (by omega)]
    simp [Bool.or_eq_true]

theorem unescape_body_cons_ne (c : Char) (l : List Char) (hc : c ≠ '\'') (hl : l ≠ []) :
    unescape_body (c :: l) = (unescape_body l).map (fun b => c :: b) := by
  cases l with
  | nil => exact absurd rfl hl
  | cons e es => simp only [unescape_body, if_neg hc]

theorem unescape_body_escape (cs : List Char) :
    unescape_body (escape_quotes cs ++ ['\'']) = some cs := by
  induction cs with
  | nil => rfl
  | cons c rest ih =>
    by_cases hc : c = '\''
    · subst hc
      simp only [escape_quotes, if_pos rfl, List.cons_append]
      show (unescape_body (escape_quotes rest ++ ['\''])).map (fun b => '\'' :: b) =
        some ('\'' :: rest)
      rw [ih]
      rfl
    · simp only [escape_quotes, if_neg hc, List.cons_append]
      rw [unescape_body_cons_ne c _ hc (by simp), ih]
      rfl

/-- C9: the greeting statement interpolates each of the four values through
`sql_string_literal`; `sql_string_literal` is a lossless SQL string-literal
encoding (wrap in single quotes, double every internal quote), and
`"O'Brien"` is rendered as `'O''Brien'`. -/
theorem sql_escaping_spec :
    (∀ e f m l : String, greeting_call_sql e f m l =
        "select util_db.public.greeting(" ++ sql_string_literal e ++ ", " ++
          sql_string_literal f ++ ", " ++ sql_string_literal m ++ ", " ++
          sql_string_literal l ++ ");") ∧
    (∀ v : String, sql_unescape (sql_string_literal v) = some v) ∧
    sql_string_literal "O'Brien" = "'O''Brien'" := by
  refine ⟨fun e f m l => rfl, fun v => ?_, by decide⟩
  show (if ('\'' : Char) = '\'' then
      (unescape_body (escape_quotes v.toList ++ ['\''])).map (fun b => (⟨b⟩ : String))
    else none) = some v
  rw [if_pos rfl, unescape_body_escape]
  rfl

end Autograder

namespace Autograder

theorem presence_errors_mem (e f l : String) :
    ∀ x ∈ presence_errors e f l,
      x = email_required_msg ∨ x = email_invalid_msg ∨ x = first_required_msg ∨
        x = last_required_msg := by
  intro x hx
  unfold presence_errors at hx
  rw [List.mem_append, List.mem_append] at hx
  rcases hx with (hx | hx) | hx <;> split_ifs at hx <;> simp at hx <;> tauto

theorem name_case_errors_mem (f m l mr : String) :
    ∀ x ∈ name_case_errors f m l mr,
      x = first_case_msg ∨ x = middle_case_msg ∨ x = last_case_msg := by
  intro x hx
  unfold name_case_errors at hx
  simp only [List.mem_append] at hx
  rcases hx with ((((hx | hx) | hx) | hx) | hx) | hx <;> split_ifs at hx <;>
    simp at hx <;> tauto

/-- C2: the pipeline is fail-fast in the order presence/shape, casing,
single-character: a nonempty category is displayed in full (the
single-character category as its one shared message) and ends the
submission, and a success — hence any script output — exists only when
all three categories are empty. -/
theorem pipeline_fail_fast (e f m l : String) :
    (presence_errors (normalize_space e) (normalize_space f) (normalize_space l) ≠ [] →
      handle_submit e f m l =
        Outcome.invalid Stage.presence
          (presence_errors (normalize_space e) (normalize_space f) (normalize_space l))) ∧
    (presence_errors (normalize_space e) (normalize_space f) (normalize_space l) = [] →
      name_case_errors (normalize_space f) (normalize_space m) (normalize_space l) m ≠ [] →
      handle_submit e f m l =
        Outcome.invalid Stage.casing
          (name_case_errors (normalize_space f) (normalize_space m) (normalize_space l) m)) ∧
    (presence_errors (normalize_space e) (normalize_space f) (normalize_space l) = [] →
      name_case_errors (normalize_space f) (normalize_space m) (normalize_space l) m = [] →
      single_char_errors (normalize_space f) f (normalize_space m) m (normalize_space l) l ≠ [] →
      handle_submit e f m l = Outcome.invalid Stage.singleChar [single_char_msg]) ∧
    (∀ s, handle_submit e f m l = Outcome.success s →
      presence_errors (normalize_space e) (normalize_space f) (normalize_space l) = [] ∧
      name_case_errors (normalize_space f) (normalize_space m) (normalize_space l) m = [] ∧
      single_char_errors (normalize_space f) f (normalize_space m) m (normalize_space l) l
        = []) := by
  simp only [handle_submit]
  refine ⟨fun h1 => ?_, fun h1 h2 => ?_, fun h1 h2 h3 => ?_, fun s hs => ?_⟩
  · rw [if_pos h1]
  · rw [if_neg (fun hn => hn h1), if_pos h2]
  · rw [if_neg (fun hn => hn h1), if_neg (fun hn => hn h2), if_pos h3]
  · split at hs
    · cases hs
    · split at hs
      · cases hs
      · split at hs
        · cases hs
        · refine ⟨not_not.mp (by assumption), not_not.mp (by assumption),
            not_not.mp (by assumption)⟩

theorem pipeline_fail_fast_witness :
    handle_submit "" "John" "" "Smith" =
      Outcome.invalid Stage.presence
        (presence_errors (normalize_space "") (normalize_space "John")
          (normalize_space "Smith")) :=
  (pipeline_fail_fast "" "John" "" "Smith").1 (by decide)

/-- C3: per name field, a single lowercase normalized character raises the
casing error and suppresses the single-character message (the casing stage
halts the submission, and the single-character flag is false for a
lowercase character anyway); the single-character flag fires exactly when
the normalized length is 1, the value is not `islower`, and the raw value
is not the allowed single initial. -/
theorem single_char_precedence (norm raw e f m l : String) :
    (single_lower_flag norm = true → single_char_flag norm raw = false) ∧
    (single_char_flag norm raw = true ↔
      (norm.length = 1 ∧ py_str_islower norm.toList = false ∧
        is_allowed_single_initial raw = false)) ∧
    (presence_errors (normalize_space e) (normalize_space f) (normalize_space l) = [] →
      single_lower_flag (normalize_space f) = true →
      handle_submit e f m l =
        Outcome.invalid Stage.casing
          (name_case_errors (normalize_space f) (normalize_space m) (normalize_space l) m) ∧
      first_case_msg ∈
        name_case_errors (normalize_space f) (normalize_space m) (normalize_space l) m ∧
      single_char_msg ∉
        name_case_errors (normalize_space f) (normalize_space m) (normalize_space l) m) := by
  refine ⟨fun h => ?_, ?_, fun h1 h2 => ?_⟩
  · simp only [single_lower_flag, Bool.and_eq_true] at h
    simp only [single_char_flag, h.2]
    simp
  · simp [single_char_flag, Bool.and_eq_true, Bool.not_eq_true', beq_iff_eq,
      and_assoc]
  · have hfirst : first_case_msg ∈
        name_case_errors (normalize_space f) (normalize_space m) (normalize_space l) m := by
      unfold name_case_errors
      rw [if_pos h2]
      simp
    have hne : name_case_errors (normalize_space f) (normalize_space m)
        (normalize_space l) m ≠ [] := by
      intro hh
      rw [hh] at hfirst
      simp at hfirst
    refine ⟨?_, hfirst, ?_⟩
    · simp only [handle_submit]
      rw [if_neg (fun hn => hn h1), if_pos hne]
    · intro hmem
      rcases name_case_errors_mem (normalize_space f) (normalize_space m)
          (normalize_space l) m single_char_msg hmem with h | h | h <;>
        exact absurd h (by decide)

theorem single_char_precedence_witness :
    handle_submit "a@b.com" "k" "" "Smith" =
      Outcome.invalid Stage.casing
        (name_case_errors (normalize_space "k") (normalize_space "")
          (normalize_space "Smith") "") :=
  (((single_char_precedence "k" "k" "a@b.com" "k" "" "Smith").2.2) (by decide)
    (by decide)).1

/-- C8: whenever the single-character category is the one displayed, the
displayed list is exactly the one shared message, however many of the
three fields triggered the flag. -/
theorem single_char_message_once (e f m l : String) (msgs : List String)
    (h : handle_submit e f m l = Outcome.invalid Stage.singleChar msgs) :
    msgs = [single_char_msg] := by
  simp only [handle_submit] at h
  split at h
  · cases h
  · split at h
    · cases h
    · split at h
      · cases h
        rfl
      · cases h

theorem single_char_message_once_witness :
    (single_char_errors (normalize_space "A") "A" (normalize_space "") ""
        (normalize_space "B") "B").length = 2 ∧
      ([single_char_msg] : List String) = [single_char_msg] :=
  ⟨by decide, single_char_message_once "a@b.com" "A" "" "B" [single_char_msg] (by decide)⟩

theorem normalize_space_eq_empty_of_all_space (f : String)
    (h : ∀ c ∈ f.toList, isPySpace c = true) : normalize_space f = "" := by
  have h1 : f.toList.reverse.dropWhile isPySpace = [] :=
    List.dropWhile_eq_nil_iff.mpr (fun x hx => h x (List.mem_reverse.mp hx))
  unfold normalize_space collapse pystrip lstrip rstrip
  rw [h1]
  rfl

/-- C10: a required first name whose raw content is whitespace-only
normalizes to empty, so the submission stops in the presence category with
"First name is required." among presence-category messages only. -/
theorem whitespace_only_first_missing (e f m l : String)
    (_hne : f.toList ≠ []) (hsp : ∀ c ∈ f.toList, isPySpace c = true) :
    ∃ msgs, handle_submit e f m l = Outcome.invalid Stage.presence msgs ∧
      first_required_msg ∈ msgs ∧
      (∀ x ∈ msgs, x = email_required_msg ∨ x = email_invalid_msg ∨
        x = first_required_msg ∨ x = last_required_msg) := by
  have hf : normalize_space f = "" := normalize_space_eq_empty_of_all_space f hsp
  have hmem : first_required_msg ∈
      presence_errors (normalize_space e) (normalize_space f) (normalize_space l) := by
    unfold presence_errors
    rw [hf]
    simp
  have hnil : presence_errors (normalize_space e) (normalize_space f)
      (normalize_space l) ≠ [] := by
    intro hh
    rw [hh] at hmem
    simp at hmem
  refine ⟨presence_errors (normalize_space e) (normalize_space f) (normalize_space l),
    ?_, hmem, presence_errors_mem _ _ _⟩
  simp only [handle_submit]
  rw [if_pos hnil]

theorem whitespace_only_first_missing_witness :
    ∃ msgs, handle_submit "a@b.com" "   " "" "Smith" =
        Outcome.invalid Stage.presence msgs ∧
      first_required_msg ∈ msgs ∧
      (∀ x ∈ msgs, x = email_required_msg ∨ x = email_invalid_msg ∨
        x = first_required_msg ∨ x = last_required_msg) :=
  whitespace_only_first_missing "a@b.com" "   " "" "Smith" (by decide) (by decide)

/-- C1 counterexample: with the email typed as `" a@b.com "` the submission
succeeds, but the generated script interpolates the normalized email
`"a@b.com"`, not the raw `" a@b.com "`: the output differs from the script
built from the raw email. -/
theorem handle_submit_success_eq (e f m l : String)
    (h1 : presence_errors (normalize_space e) (normalize_space f) (normalize_space l) = [])
    (h2 : name_case_errors (normalize_space f) (normalize_space m) (normalize_space l) m = [])
    (h3 : single_char_errors (normalize_space f) f (normalize_space m) m
      (normalize_space l) l = []) :
    handle_submit e f m l = Outcome.success (sql_out (normalize_space e) f m l) := by
  simp only [handle_submit]
  rw [if_neg (fun hn => hn h1), if_neg (fun hn => hn h2), if_neg (fun hn => hn h3)]

theorem greeting_of_sql_out_eq (e1 f1 m1 l1 e2 f2 m2 l2 : String)
    (h : sql_out e1 f1 m1 l1 = sql_out e2 f2 m2 l2) :
    greeting_call_sql e1 f1 m1 l1 = greeting_call_sql e2 f2 m2 l2 := by
  unfold sql_out at h
  have h1 := congrArg String.data h
  simp only [String.data_append] at h1
  exact String.ext (List.append_cancel_left (List.append_cancel_right h1))

set_option maxRecDepth 4000 in
/-- C1 counterexample: with the email typed as `" a@b.com "` the submission
succeeds, but the generated script interpolates the normalized email
`"a@b.com"`, not the raw `" a@b.com "`: the output differs from the script
built from the raw email value. -/
theorem greeting_email_not_raw_counterexample :
    handle_submit " a@b.com " "John" "" "Smith" =
      Outcome.success (sql_out "a@b.com" "John" "" "Smith") ∧
    sql_out "a@b.com" "John" "" "Smith" ≠ sql_out " a@b.com " "John" "" "Smith" := by
  constructor
  · rw [handle_submit_success_eq " a@b.com " "John" "" "Smith" (by decide) (by decide)
      (by decide)]
    rw [show normalize_space " a@b.com " = "a@b.com" from by decide]
  · intro h
    have hg := greeting_of_sql_out_eq _ _ _ _ _ _ _ _ h
    exact absurd hg (by decide)

/-- C1 amended: on success the three name values interpolated into the
greeting statement are the raw, as-typed field contents, while the email
value is the normalized field content. -/
theorem success_sql_normalized_email_raw_names (e f m l s : String)
    (h : handle_submit e f m l = Outcome.success s) :
    s = sql_out (normalize_space e) f m l := by
  simp only [handle_submit] at h
  split at h
  · cases h
  · split at h
    · cases h
    · split at h
      · cases h
      · cases h
        rfl

theorem success_sql_normalized_email_raw_names_witness :
    sql_out "a@b.com" "K " "" "Smith" = sql_out (normalize_space " a@b.com ") "K " "" "Smith" :=
  success_sql_normalized_email_raw_names " a@b.com " "K " "" "Smith"
    (sql_out "a@b.com" "K " "" "Smith")
    (by
      rw [handle_submit_success_eq " a@b.com " "K " "" "Smith" (by decide) (by decide)
        (by decide)]
      rw [show normalize_space " a@b.com " = "a@b.com" from by decide])

end Autograder


namespace Autograder

theorem split_at_first_sound (sep : Char) (cs : List Char) :
    ∀ a b, split_at_first sep cs = some (a, b) → cs = a ++ sep :: b ∧ sep ∉ a := by
  induction cs with
  | nil => intro a b h; simp [split_at_first] at h
  | cons c rest ih =>
    intro a b h
    simp only [split_at_first] at h
    by_cases hc : c = sep
    · rw [if_pos hc] at h
      cases h
      subst hc
      exact ⟨rfl, by simp⟩
    · rw [if_neg hc] at h
      cases hsp : split_at_first sep rest with
      | none => rw [hsp] at h; cases h
      | some p =>
        obtain ⟨a', b'⟩ := p
        rw [hsp] at h
        injection h with hh
        injection hh with h1 h2
        subst h1
        subst h2
        obtain ⟨hh1, hh2⟩ := ih a' b' hsp
        constructor
        · rw [List.cons_append, ← hh1]
        · intro hm
          rcases List.mem_cons.mp hm with hm | hm
          · exact hc hm.symm
          · exact hh2 hm

theorem split_at_first_append (sep : Char) (a b : List Char) (ha : sep ∉ a) :
    split_at_first sep (a ++ sep :: b) = some (a, b) := by
  induction a with
  | nil => simp [split_at_first]
  | cons x t ih =>
    have hx : ¬(x = sep) := fun hh => ha (hh ▸ List.mem_cons_self x t)
    simp only [List.cons_append, split_at_first, List.append_eq]
    rw [if_neg hx, ih (fun hm => ha (List.mem_cons_of_mem x hm))]

theorem email_ok_iff (s : String) : email_ok s = true ↔ EMAIL_RE_matches s.toList := by
  unfold email_ok
  constructor
  · intro h
    cases hsp : split_at_first '@' s.toList with
    | none => rw [hsp] at h; cases h
    | some p =>
      obtain ⟨loc, dom⟩ := p
      rw [hsp] at h
      obtain ⟨hcs, hnotin⟩ := split_at_first_sound '@' s.toList loc dom hsp
      simp only [Bool.and_eq_true, List.all_eq_true, Bool.not_eq_true',
        List.isEmpty_eq_false, decide_eq_true_eq] at h
      obtain ⟨⟨⟨hloc_ne, hloc_sp⟩, hdom⟩, hdot⟩ := h
      have hdot' : '.' ∈ (dom.drop 1).dropLast := by
        simpa [List.elem_iff] using hdot
      obtain ⟨u, v, huv⟩ := List.append_of_mem hdot'
      cases hdom0 : dom with
      | nil => rw [hdom0] at huv; simp at huv
      | cons d0 ds =>
        rw [hdom0] at huv
        have hdrop : (d0 :: ds).drop 1 = ds := rfl
        rw [hdrop] at huv
        have hds_ne : ds ≠ [] := by
          intro hh
          rw [hh] at huv
          simp at huv
        have hds : ds = (u ++ '.' :: v) ++ [ds.getLast hds_ne] := by
          conv_lhs => rw [← List.dropLast_concat_getLast hds_ne]
          rw [huv]
        have hdomc : ∀ ch ∈ d0 :: ds, isPySpace ch = false ∧ ch ≠ '@' := by
          rw [← hdom0]; exact hdom
        have hlastmem : ds.getLast hds_ne ∈ d0 :: ds :=
          List.mem_cons_of_mem d0 (List.getLast_mem hds_ne)
        refine ⟨loc, d0 :: u, v ++ [ds.getLast hds_ne], ?_, hloc_ne, by simp, by simp,
          ?_, ?_, ?_⟩
        · rw [hcs, hdom0]
          conv_lhs => rw [hds]
          simp [List.append_assoc, List.cons_append]
        · intro ch hch
          exact ⟨hloc_sp ch hch, fun hh => hnotin (hh ▸ hch)⟩
        · intro ch hch
          rcases List.mem_cons.mp hch with hch | hch
          · exact hdomc ch (hch ▸ List.mem_cons_self d0 ds)
          · refine hdomc ch (List.mem_cons_of_mem d0 ?_)
            rw [hds]
            exact List.mem_append_left _ (List.mem_append_left _ hch)
        · intro ch hch
          rcases List.mem_append.mp hch with hch | hch
          · refine hdomc ch (List.mem_cons_of_mem d0 ?_)
            rw [hds]
            exact List.mem_append_left _ (List.mem_append_right _ (List.mem_cons_of_mem _ hch))
          · rw [List.mem_singleton] at hch
            exact hdomc ch (hch ▸ hlastmem)
  · rintro ⟨a, b, c, hcs, ha_ne, hb_ne, hc_ne, ha, hb, hc⟩
    have hnotin : '@' ∉ a := fun hm => (ha '@' hm).2 rfl
    rw [hcs, split_at_first_append '@' a (b ++ '.' :: c) hnotin]
    simp only [Bool.and_eq_true, List.all_eq_true, Bool.not_eq_true',
      List.isEmpty_eq_false, decide_eq_true_eq]
    refine ⟨⟨⟨ha_ne, fun x hx => (ha x hx).1⟩, ?_⟩, ?_⟩
    · intro x hx
      rcases List.mem_append.mp hx with hx | hx
      · exact ⟨(hb x hx).1, (hb x hx).2⟩
      · rcases List.mem_cons.mp hx with hx | hx
        · subst hx; exact ⟨by decide, by decide⟩
        · exact ⟨(hc x hx).1, (hc x hx).2⟩
    · cases hb0 : b with
      | nil => exact absurd hb0 hb_ne
      | cons b0 b' =>
        cases hc0 : c with
        | nil => exact absurd hc0 hc_ne
        | cons c0 c' =>
          have hdrop : List.drop 1 ((b0 :: b') ++ '.' :: c0 :: c') = b' ++ '.' :: c0 :: c' :=
            rfl
          rw [hdrop, List.dropLast_append_cons, List.dropLast_cons₂]
          simp

/-- C6: the email validator accepts a string iff it matches
`^[^\s@]+@[^\s@]+\.[^\s@]+$` — one or more non-space/non-`@` characters,
an `@`, one or more non-space/non-`@` characters, a dot, one or more
non-space/non-`@` characters; `"x@y.com"` is accepted while `"x@y"`,
`"@y.com"` and `"x y@z.com"` are rejected. -/
theorem email_ok_spec :
    (∀ s : String, email_ok s = true ↔ EMAIL_RE_matches s.toList) ∧
    email_ok "x@y.com" = true ∧
    email_ok "x@y" = false ∧
    email_ok "@y.com" = false ∧
    email_ok "x y@z.com" = false :=
  ⟨email_ok_iff, by decide, by decide, by decide, by decide⟩

end Autograder
